import Mathlib

/-!
Verification of the line-counting core of rustedbytes-counterlines.

The Rust sources under `src/` are embedded shallowly:

* Lines and comment delimiters are `List Char` (Rust `&str` slices; byte
  indices of `str::find` coincide with character indices for the ASCII
  delimiters and inputs used here, and `char::is_whitespace` is modelled by
  the ASCII whitespace set, which is all the classifier's trims ever meet in
  the properties below).
* `CommentParser::parse_line` and `CommentParser::is_in_multiline_comment`
  (src/language.rs) become pure functions; the `&mut bool` / `&mut usize`
  out-parameters become explicit state passing with an `Int` depth (the Rust
  `usize` decrement is guarded by `*depth > 0`, which the model keeps).
* `count_file` (src/counter.rs) becomes a fold over the decoded line list;
  file I/O and UTF-8 decoding are outside the core and enter as the given
  `List (List Char)` of lines.
* The detector, report model, SHA-256 checksum and report diff follow in
  later sections.
-/

namespace CounterLines

/-- ASCII whitespace, the fragment of Rust `char::is_whitespace` exercised by
the classifier on the inputs considered here. -/
def isWS (c : Char) : Bool :=
  c = ' ' || c = '\t' || c = '\n' || c = '\r'

/-- Drop leading whitespace (one side of Rust `str::trim`). -/
def trimL : List Char → List Char
  | [] => []
  | c :: t => if isWS c then trimL t else c :: t

/-- Rust `str::trim`: drop leading and trailing whitespace. -/
def trimList (l : List Char) : List Char :=
  (trimL (trimL l).reverse).reverse

/-- Rust `str::find(pat)`: index of the first occurrence of `pat` as a
contiguous sub-sequence (an empty pattern matches at 0, as in Rust). -/
def findSub : List Char → List Char → Option Nat
  | l, pat =>
    if pat.isPrefixOf l then some 0
    else
      match l with
      | [] => none
      | _ :: t => (findSub t pat).map (· + 1)

/-- Rust `str::contains(pat)`. -/
def containsSub (l pat : List Char) : Bool :=
  (findSub l pat).isSome

/-- Rust `LineType` from src/language.rs. -/
inductive LineType where
  | Empty
  | Comment
  | Logical
  | Mixed
deriving DecidableEq

/-- Rust `Language` from src/language.rs. `preprocessor_mark` is the source's
preprocessor-prefix field. -/
structure Language where
  name : String
  extensions : List String
  single_line_comment : List (List Char)
  multi_line_comment : List (List Char × List Char)
  nested_comments : Bool
  preprocessor_mark : Option (List Char)
deriving DecidableEq

/-- The cross-line multiline-comment state threaded through
`is_in_multiline_comment` (`&mut bool in_comment`, `&mut usize depth`).
`depth` is an `Int` so that non-negativity is a provable property rather
than a typing artifact; the source only ever decrements under a
`*depth > 0` guard. -/
structure MState where
  inComment : Bool
  depth : Int
deriving DecidableEq

/-- Rust `CommentParser::parse_line` (src/language.rs lines 297-335). -/
def parse_line (lang : Language) (ignorePre : Bool) (line : List Char) : LineType :=
  let trimmed := trimList line
  if (match lang.preprocessor_mark with
      | some p => ignorePre && p.isPrefixOf trimmed
      | none => false) then
    .Empty
  else if trimmed.isEmpty then
    .Empty
  else
    match lang.single_line_comment.find? (fun m => m.isPrefixOf trimmed) with
    | some m =>
      if (trimList (trimmed.drop m.length)).isEmpty then .Empty else .Comment
    | none =>
      if lang.single_line_comment.any
          (fun m => containsSub line m && !(m.isPrefixOf (trimList line))) then
        .Mixed
      else
        .Logical

/-- The `while line_copy.contains(start) || line_copy.contains(end)` loop of
the nested-comments branch of `is_in_multiline_comment` (src/language.rs
lines 352-379).  `fuel` bounds the iteration count; every iteration cuts the
copy strictly (for non-empty tokens), so `copy.length + 1` fuel is exact —
with an empty token the Rust loop diverges, which the model truncates. -/
def nestedLoop (fuel : Nat) (s e : List Char) (copy : List Char) (depth : Int) :
    Int × List Char :=
  match fuel with
  | 0 => (depth, copy)
  | fuel + 1 =>
    if containsSub copy s || containsSub copy e then
      match findSub copy s with
      | some sp =>
        match findSub copy e with
        | some ep =>
          if sp < ep then
            nestedLoop fuel s e (copy.drop (sp + s.length)) (depth + 1)
          else
            nestedLoop fuel s e (copy.drop (ep + e.length))
              (if 0 < depth then depth - 1 else depth)
        | none =>
          nestedLoop fuel s e (copy.drop (sp + s.length)) (depth + 1)
      | none =>
        match findSub copy e with
        | some ep =>
          nestedLoop fuel s e (copy.drop (ep + e.length))
            (if 0 < depth then depth - 1 else depth)
        | none => (depth, copy)
    else (depth, copy)

/-- The `for (start, end) in &self.language.multi_line_comment` loop of
`is_in_multiline_comment` (src/language.rs lines 351-414).  `line` is the
immutable full line, `copy` the mutable `line_copy`, `res` the `result`
local; a Rust `return false` is modelled by returning immediately with the
state mutated so far. -/
def goPairs (nested : Bool) (line : List Char)
    (pairs : List (List Char × List Char)) (copy : List Char)
    (st : MState) (res : Bool) : Bool × MState :=
  match pairs with
  | [] => (res, st)
  | (s, e) :: rest =>
    if nested then
      let r := nestedLoop (copy.length + 1) s e copy st.depth
      goPairs nested line rest r.2 { st with depth := r.1 } (decide (0 < r.1))
    else
      if st.inComment then
        if containsSub line e then
          match findSub line e with
          | some pos =>
            if (trimList (line.drop (pos + e.length))).isEmpty then
              goPairs nested line rest copy { st with inComment := false } true
            else
              (false, { st with inComment := false })
          | none =>
            goPairs nested line rest copy { st with inComment := false } true
        else
          goPairs nested line rest copy st true
      else
        if containsSub line s then
          match findSub line s with
          | some sp =>
            let afterStart := line.drop (sp + s.length)
            if containsSub afterStart e then
              match findSub afterStart e with
              | some ep =>
                if (trimList (line.take sp)).isEmpty
                    && (trimList (afterStart.drop (ep + e.length))).isEmpty then
                  goPairs nested line rest copy { st with inComment := false } true
                else
                  (false, { st with inComment := false })
              | none =>
                goPairs nested line rest copy { st with inComment := false } true
            else
              goPairs nested line rest copy { st with inComment := true } true
          | none =>
            goPairs nested line rest copy { st with inComment := true } true
        else
          goPairs nested line rest copy st res

/-- Rust `CommentParser::is_in_multiline_comment` (src/language.rs lines 338-417):
returns the boolean result together with the updated state. -/
def is_in_multiline_comment (lang : Language) (line : List Char) (st : MState) :
    Bool × MState :=
  if lang.multi_line_comment.isEmpty then (false, st)
  else goPairs lang.nested_comments line lang.multi_line_comment line st st.inComment

/-- Rust `FileStats` from src/report.rs. -/
structure FileStats where
  path : String
  language : String
  total_lines : Nat
  logical_lines : Nat
  comment_lines : Nat
  empty_lines : Nat
deriving DecidableEq

/-- One iteration of the per-line loop of `count_file` (src/counter.rs lines
383-402): bump `total_lines`, consult the multiline check, and either count
only blank in-comment lines as empty or classify via `parse_line`. -/
def lineStep (lang : Language) (ignorePre : Bool)
    (acc : FileStats × MState) (line : List Char) : FileStats × MState :=
  let f0 := acc.1
  let f := { f0 with total_lines := f0.total_lines + 1 }
  let r := is_in_multiline_comment lang line acc.2
  if r.1 then
    (if (trimList line).isEmpty then
      { f with empty_lines := f.empty_lines + 1 }
     else f, r.2)
  else
    (match parse_line lang ignorePre line with
     | .Empty => { f with empty_lines := f.empty_lines + 1 }
     | .Comment => { f with comment_lines := f.comment_lines + 1 }
     | .Logical => { f with logical_lines := f.logical_lines + 1 }
     | .Mixed => { f with logical_lines := f.logical_lines + 1 }, r.2)

/-- Rust `count_file` (src/counter.rs lines 355-425), with detection resolved
separately (the `Option Language` argument is `detector.detect(path)`) and
the decoded lines given as a list.  The unknown-language fallback counts
every non-blank line as logical. -/
def count_file (path : String) (lang? : Option Language) (ignorePre : Bool)
    (lines : List (List Char)) : FileStats :=
  match lang? with
  | some lang =>
    (lines.foldl (lineStep lang ignorePre)
      (⟨path, lang.name, 0, 0, 0, 0⟩, ⟨false, 0⟩)).1
  | none =>
    lines.foldl
      (fun f line =>
        let f := { f with total_lines := f.total_lines + 1 }
        if (trimList line).isEmpty then
          { f with empty_lines := f.empty_lines + 1 }
        else
          { f with logical_lines := f.logical_lines + 1 })
      ⟨path, "Unknown", 0, 0, 0, 0⟩

/-- The built-in C definition from `load_default_languages` (src/language.rs
lines 91-101). -/
def cLang : Language where
  name := "C"
  extensions := ["c", "h"]
  single_line_comment := ["//".toList]
  multi_line_comment := [("/*".toList, "*/".toList)]
  nested_comments := false
  preprocessor_mark := some "#".toList

/-- The built-in Rust definition from `load_default_languages` (src/language.rs
lines 78-88); the one built-in language with nested comments. -/
def rustLang : Language where
  name := "Rust"
  extensions := ["rs"]
  single_line_comment := ["//".toList]
  multi_line_comment := [("/*".toList, "*/".toList)]
  nested_comments := true
  preprocessor_mark := none

/-! ## String-keyed maps

`HashMap<String, _>` is modelled as an association list with at most one
entry per key: `upsert` mirrors `HashMap::insert` (overwrite the existing
entry, else add one), `alGet` mirrors `HashMap::get`.  Iteration over a
map's entries, whose order a `HashMap` leaves unspecified, is determinised
as insertion order; no theorem below depends on that order. -/

def upsert {α : Type} (m : List (String × α)) (k : String) (v : α) :
    List (String × α) :=
  if m.any (fun kv => kv.1 = k) then
    m.map (fun kv => if kv.1 = k then (kv.1, v) else kv)
  else m ++ [(k, v)]

def alGet {α : Type} (m : List (String × α)) (k : String) : Option α :=
  (m.find? (fun kv => kv.1 = k)).map (fun kv => kv.2)

/-- Collect a `HashMap` keyed by `key` from a list, later entries
overwriting earlier ones (`iter().map(|f| (key(f), f)).collect()`). -/
def entriesOf {α : Type} (key : α → String) (xs : List α) :
    List (String × α) :=
  xs.foldl (fun m x => upsert m (key x) x) []

/-! ## Language detection (src/language.rs lines 18-73) -/

/-- Rust `LanguageDetector`: registry, derived extension map, overrides. -/
structure LanguageDetector where
  languages : List (String × Language)
  extension_map : List (String × String)
  overrides : List (String × String)

/-- Rust `LanguageDetector::add_override` (src/language.rs lines 50-52). -/
def add_override (d : LanguageDetector) (ext lang : String) : LanguageDetector :=
  { d with overrides := upsert d.overrides ext lang }

/-- Rust `LanguageDetector::add_language` (src/language.rs lines 68-73). -/
def add_language (d : LanguageDetector) (key : String) (lang : Language) :
    LanguageDetector :=
  { d with
    extension_map := lang.extensions.foldl (fun m ext => upsert m ext key) d.extension_map
    languages := upsert d.languages key lang }

/-- Rust `LanguageDetector::detect` (src/language.rs lines 55-66).  The argument
is the path's extension, `path.extension()?.to_str()?`: `none` when the path
has no extension (or a non-UTF-8 one). -/
def detect (d : LanguageDetector) (ext? : Option String) : Option Language :=
  match ext? with
  | none => none
  | some ext =>
    match alGet d.overrides ext with
    | some langName => alGet d.languages langName
    | none => (alGet d.extension_map ext).bind (alGet d.languages)

/-- The constructors of `SlocError` (src/error.rs) reachable from the
functions modelled here. -/
inductive SlocError where
  | InvalidConfig (msg : String)
  | Io (msg : String)
deriving DecidableEq

/-- Rust `LanguageDetector::load_from_config` (src/language.rs lines 38-47).  The
`fs::read_to_string` + `toml::from_str` front end is external; its outcome
enters as `parsed` (`error` = the toml parse error message).  On a parse
error the function returns before touching the detector, so the detector
comes back unchanged; on success every parsed entry goes through
`add_language` (iteration order of the parsed map determinised as list
order). -/
def load_from_config (d : LanguageDetector)
    (parsed : Except String (List (String × Language))) :
    LanguageDetector × Option SlocError :=
  match parsed with
  | .error e => (d, some (.InvalidConfig e))
  | .ok entries =>
    (entries.foldl (fun d kv => add_language d kv.1 kv.2) d, none)

/-! ## Report model (src/report.rs) -/

/-- Rust `LanguageStats` from src/report.rs. -/
structure LanguageStats where
  language : String
  file_count : Nat
  total_lines : Nat
  logical_lines : Nat
  comment_lines : Nat
  empty_lines : Nat
deriving DecidableEq

/-- Rust `GlobalSummary` from src/report.rs. -/
structure GlobalSummary where
  total_files : Nat
  total_lines : Nat
  logical_lines : Nat
  comment_lines : Nat
  empty_lines : Nat
  languages_count : Nat
  unsupported_files : Nat
deriving DecidableEq

/-- Rust `Report` from src/report.rs.  `generated_at` is the RFC 3339 rendering of
the timestamp; paths are strings (`to_string_lossy`). -/
structure Report where
  report_format_version : String
  generated_at : String
  files : List FileStats
  languages : List LanguageStats
  summary : GlobalSummary
  unsupported_files : List String
  checksum : Option String
deriving DecidableEq

/-! ## JSON serialization (serde derive on src/report.rs)

`export_json` is `serde_json::to_string_pretty(report)` (src/output.rs line
294), so the field names are fixed by the `derive(Serialize)` attributes in
src/report.rs: `Report` carries `#[serde(rename_all = "camelCase")]` and
`#[serde(skip_serializing_if = "Option::is_none")]` on `checksum`, while
`FileStats`, `LanguageStats` and `GlobalSummary` carry no rename attribute,
so their fields serialize under their Rust (snake_case) names.  The `Json`
tree below records exactly the object keys and values serde emits. -/

inductive Json where
  | str (s : String)
  | num (n : Nat)
  | arr (xs : List Json)
  | obj (fields : List (String × Json))

/-- The keys of a JSON object (empty for non-objects). -/
def topKeys : Json → List String
  | .obj fields => fields.map (fun kv => kv.1)
  | _ => []

/-- serde serialization of `FileStats` (no rename attribute). -/
def FileStats.toJson (f : FileStats) : Json :=
  .obj [("path", .str f.path), ("language", .str f.language),
        ("total_lines", .num f.total_lines), ("logical_lines", .num f.logical_lines),
        ("comment_lines", .num f.comment_lines), ("empty_lines", .num f.empty_lines)]

/-- serde serialization of `LanguageStats` (no rename attribute). -/
def LanguageStats.toJson (l : LanguageStats) : Json :=
  .obj [("language", .str l.language), ("file_count", .num l.file_count),
        ("total_lines", .num l.total_lines), ("logical_lines", .num l.logical_lines),
        ("comment_lines", .num l.comment_lines), ("empty_lines", .num l.empty_lines)]

/-- serde serialization of `GlobalSummary` (no rename attribute). -/
def GlobalSummary.toJson (s : GlobalSummary) : Json :=
  .obj [("total_files", .num s.total_files), ("total_lines", .num s.total_lines),
        ("logical_lines", .num s.logical_lines), ("comment_lines", .num s.comment_lines),
        ("empty_lines", .num s.empty_lines), ("languages_count", .num s.languages_count),
        ("unsupported_files", .num s.unsupported_files)]

/-- serde serialization of `Report`: `rename_all = "camelCase"` on its own
fields, `checksum` omitted when `None`. -/
def Report.toJson (r : Report) : Json :=
  .obj ([("reportFormatVersion", .str r.report_format_version),
         ("generatedAt", .str r.generated_at),
         ("files", .arr (r.files.map FileStats.toJson)),
         ("languages", .arr (r.languages.map LanguageStats.toJson)),
         ("summary", r.summary.toJson),
         ("unsupportedFiles", .arr (r.unsupported_files.map Json.str))] ++
        (match r.checksum with
         | some c => [("checksum", Json.str c)]
         | none => []))

/-! ## SHA-256 (the `sha2` crate behind `Report::calculate_checksum`)

A bit-for-bit implementation of FIPS 180-4 SHA-256 over byte lists,
executable in the kernel: 32-bit words are `Nat` values below `2^32`, and
the bitwise operations are written with the kernel-accelerated `Nat`
primitives (add, mul, div, mod) over a bit-at-a-time recursion. -/

/-- Bitwise xor of the low `k` bits. -/
def xorW : Nat → Nat → Nat → Nat
  | 0, _, _ => 0
  | k + 1, a, b => (a + b) % 2 + 2 * xorW k (a / 2) (b / 2)

/-- Bitwise and of the low `k` bits. -/
def andW : Nat → Nat → Nat → Nat
  | 0, _, _ => 0
  | k + 1, a, b => a % 2 * (b % 2) + 2 * andW k (a / 2) (b / 2)

def xor32 (a b : Nat) : Nat := xorW 32 a b

def and32 (a b : Nat) : Nat := andW 32 a b

/-- Bitwise complement of a word below `2^32`. -/
def not32 (a : Nat) : Nat := 4294967295 - a

/-- Right-rotation of a 32-bit word by `n ≤ 32`. -/
def rotr32 (n x : Nat) : Nat :=
  x / 2 ^ n + x % 2 ^ n * 2 ^ (32 - n)

/-- Logical right shift of a 32-bit word by `n`. -/
def shr32 (n x : Nat) : Nat := x / 2 ^ n

def bsig0 (x : Nat) : Nat := xor32 (rotr32 2 x) (xor32 (rotr32 13 x) (rotr32 22 x))

def bsig1 (x : Nat) : Nat := xor32 (rotr32 6 x) (xor32 (rotr32 11 x) (rotr32 25 x))

def ssig0 (x : Nat) : Nat := xor32 (rotr32 7 x) (xor32 (rotr32 18 x) (shr32 3 x))

def ssig1 (x : Nat) : Nat := xor32 (rotr32 17 x) (xor32 (rotr32 19 x) (shr32 10 x))

def chF (x y z : Nat) : Nat := xor32 (and32 x y) (and32 (not32 x) z)

def majF (x y z : Nat) : Nat := xor32 (and32 x y) (xor32 (and32 x z) (and32 y z))

/-- The 64 SHA-256 round constants (the fractional parts of the cube
roots of the first 64 primes, as 32-bit words, here in decimal). -/
def shaK : List Nat :=
  [
   1116352408, 1899447441, 3049323471, 3921009573,
   961987163, 1508970993, 2453635748, 2870763221,
   3624381080, 310598401, 607225278, 1426881987,
   1925078388, 2162078206, 2614888103, 3248222580,
   3835390401, 4022224774, 264347078, 604807628,
   770255983, 1249150122, 1555081692, 1996064986,
   2554220882, 2821834349, 2952996808, 3210313671,
   3336571891, 3584528711, 113926993, 338241895,
   666307205, 773529912, 1294757372, 1396182291,
   1695183700, 1986661051, 2177026350, 2456956037,
   2730485921, 2820302411, 3259730800, 3345764771,
   3516065817, 3600352804, 4094571909, 275423344,
   430227734, 506948616, 659060556, 883997877,
   958139571, 1322822218, 1537002063, 1747873779,
   1955562222, 2024104815, 2227730452, 2361852424,
   2428436474, 2756734187, 3204031479, 3329325298]

/-- The initial SHA-256 hash value (decimal). -/
def shaH0 : List Nat :=
  [
   1779033703, 3144134277, 1013904242, 2773480762,
   1359893119, 2600822924, 528734635, 1541459225]

/-- Extend the 16 message words of a block to 64 schedule words. -/
def extendW : Nat → List Nat → List Nat
  | 0, ws => ws
  | k + 1, ws =>
    extendW k (ws ++ [(ssig1 (ws.getD (ws.length - 2) 0) + ws.getD (ws.length - 7) 0 +
                       ssig0 (ws.getD (ws.length - 15) 0) + ws.getD (ws.length - 16) 0) %
                      4294967296])

/-- One SHA-256 round on the eight working variables. -/
def shaRound (st : List Nat) (kw : Nat × Nat) : List Nat :=
  match st with
  | [a, b, c, d, e, f, g, h] =>
    let t1 := (h + bsig1 e + chF e f g + kw.1 + kw.2) % 4294967296
    let t2 := (bsig0 a + majF a b c) % 4294967296
    [(t1 + t2) % 4294967296, a, b, c, (d + t1) % 4294967296, e, f, g]
  | st => st

/-- Compress one 16-word block into the running hash. -/
def compressBlock (h : List Nat) (block : List Nat) : List Nat :=
  let ws := extendW 48 block
  let st := (List.zip shaK ws).foldl shaRound h
  List.zipWith (fun x y => (x + y) % 4294967296) h st

/-- Big-endian byte rendering of `x` on `n` bytes. -/
def beBytes : Nat → Nat → List Nat
  | 0, _ => []
  | n + 1, x => beBytes n (x / 256) ++ [x % 256]

/-- SHA-256 padding: `0x80`, zeros to 56 mod 64, 8-byte big-endian bit length. -/
def padMsg (msg : List Nat) : List Nat :=
  msg ++ [128] ++ List.replicate ((119 - msg.length % 64) % 64) 0 ++
    beBytes 8 (8 * msg.length)

/-- Big-endian 32-bit words of a byte list. -/
def toWords : List Nat → List Nat
  | b0 :: b1 :: b2 :: b3 :: rest => (((b0 * 256 + b1) * 256 + b2) * 256 + b3) :: toWords rest
  | _ => []

/-- Split a padded byte list into 16-word blocks (`fuel`-bounded recursion;
the fuel is always at least the byte count). -/
def toBlocksF : Nat → List Nat → List (List Nat)
  | 0, _ => []
  | _, [] => []
  | n + 1, bs => toWords (bs.take 64) :: toBlocksF n (bs.drop 64)

/-- SHA-256 digest (32 bytes) of a byte list. -/
def sha256 (msg : List Nat) : List Nat :=
  let padded := padMsg msg
  ((toBlocksF padded.length padded).foldl compressBlock shaH0).foldr
    (fun w acc => beBytes 4 w ++ acc) []

/-- One lower-case hexadecimal digit. -/
def hexDigit (n : Nat) : Char :=
  if n < 10 then Char.ofNat (48 + n) else Char.ofNat (87 + n)

/-- Rust `hex::encode`: lower-case hexadecimal rendering of a byte list. -/
def hexEncode (bs : List Nat) : String :=
  ⟨bs.foldr (fun b acc => hexDigit (b / 16) :: hexDigit (b % 16) :: acc) []⟩

/-- The bytes of an (ASCII) string, as fed to `Sha256::update`. -/
def strBytes (s : String) : List Nat :=
  s.data.map Char.toNat

/-! ## `Report::calculate_checksum` (src/report.rs lines 145-163) -/

/-- Lexicographic comparison of character lists by code point — the order
`PathBuf::cmp` induces on valid-UTF-8 paths (UTF-8 byte order coincides
with code-point order).  Written as explicit recursion so it evaluates in
the kernel. -/
def charsLe : List Char → List Char → Bool
  | [], _ => true
  | _ :: _, [] => false
  | a :: as, b :: bs =>
    if a < b then true
    else if b < a then false
    else charsLe as bs

/-- True when `a.cmp(&b)` is `Less | Equal` for path strings. -/
def pathLe (a b : String) : Bool := charsLe a.data b.data

/-- The path order used by `calculate_checksum`:
`sorted_files.sort_by(|a, b| a.path.cmp(&b.path))`, a stable sort by path.
`List.insertionSort` with `pathLe` is sorted and stable, which
characterises the Rust result. -/
def sortByPath (files : List FileStats) : List FileStats :=
  List.insertionSort (fun a b => pathLe a.path b.path = true) files

/-- The exact byte stream `calculate_checksum` feeds the hasher: for every
file in path-sorted order, path, language and the four counters in decimal,
concatenated without separators. -/
def checksumInput (files : List FileStats) : List Nat :=
  (sortByPath files).foldl
    (fun acc f =>
      acc ++ strBytes f.path ++ strBytes f.language ++
      strBytes (Nat.repr f.total_lines) ++ strBytes (Nat.repr f.logical_lines) ++
      strBytes (Nat.repr f.comment_lines) ++ strBytes (Nat.repr f.empty_lines))
    []

/-- Rust `Report::calculate_checksum`: stores the lower-case hex SHA-256 of the
sorted file stream into the `checksum` field. -/
def calculate_checksum (r : Report) : Report :=
  { r with checksum := some (hexEncode (sha256 (checksumInput r.files))) }

/-! ## `ComparisonResult::compare` (src/processor.rs lines 213-315) -/

structure GlobalDelta where
  files_delta : Int
  total_lines_delta : Int
  logical_lines_delta : Int
  empty_lines_delta : Int
  languages_delta : Int
deriving DecidableEq

structure LanguageDelta where
  language : String
  files_delta : Int
  total_lines_delta : Int
  logical_lines_delta : Int
  empty_lines_delta : Int
deriving DecidableEq

structure FileDelta where
  path : String
  total_lines_delta : Int
  logical_lines_delta : Int
  empty_lines_delta : Int
deriving DecidableEq

structure ComparisonResult where
  report1_generated : String
  report2_generated : String
  global_delta : GlobalDelta
  language_deltas : List LanguageDelta
  new_files : List String
  removed_files : List String
  modified_files : List FileDelta
deriving DecidableEq

/-- Rust `ComparisonResult::compare` (src/processor.rs lines 215-314).  The
path-keyed and language-keyed `HashMap`s become `entriesOf` maps; the
union `HashSet` of language names, whose iteration order the source leaves
unspecified, is determinised as first-occurrence order of
`lang1.keys().chain(lang2.keys())`. -/
def compare (r1 r2 : Report) : ComparisonResult :=
  let m1 := entriesOf FileStats.path r1.files
  let m2 := entriesOf FileStats.path r2.files
  let newFiles := (m2.filter (fun kv => (alGet m1 kv.1).isNone)).map (fun kv => kv.1)
  let modifiedFiles := m2.filterMap (fun kv =>
    match alGet m1 kv.1 with
    | some f1 =>
      if f1.total_lines ≠ kv.2.total_lines ∨ f1.logical_lines ≠ kv.2.logical_lines ∨
          f1.empty_lines ≠ kv.2.empty_lines then
        some ⟨kv.1, (kv.2.total_lines : Int) - f1.total_lines,
              (kv.2.logical_lines : Int) - f1.logical_lines,
              (kv.2.empty_lines : Int) - f1.empty_lines⟩
      else none
    | none => none)
  let removedFiles := (m1.filter (fun kv => (alGet m2 kv.1).isNone)).map (fun kv => kv.1)
  let globalDelta : GlobalDelta :=
    ⟨(r2.summary.total_files : Int) - r1.summary.total_files,
     (r2.summary.total_lines : Int) - r1.summary.total_lines,
     (r2.summary.logical_lines : Int) - r1.summary.logical_lines,
     (r2.summary.empty_lines : Int) - r1.summary.empty_lines,
     (r2.summary.languages_count : Int) - r1.summary.languages_count⟩
  let lm1 := entriesOf LanguageStats.language r1.languages
  let lm2 := entriesOf LanguageStats.language r2.languages
  let allLanguages := (lm1.map (fun kv => kv.1) ++ lm2.map (fun kv => kv.1)).eraseDups
  let languageDeltas := allLanguages.filterMap (fun name =>
    let stats1 := alGet lm1 name
    let stats2 := alGet lm2 name
    let delta : LanguageDelta :=
      ⟨name,
       (stats2.map (fun s => (s.file_count : Int))).getD 0 -
         (stats1.map (fun s => (s.file_count : Int))).getD 0,
       (stats2.map (fun s => (s.total_lines : Int))).getD 0 -
         (stats1.map (fun s => (s.total_lines : Int))).getD 0,
       (stats2.map (fun s => (s.logical_lines : Int))).getD 0 -
         (stats1.map (fun s => (s.logical_lines : Int))).getD 0,
       (stats2.map (fun s => (s.empty_lines : Int))).getD 0 -
         (stats1.map (fun s => (s.empty_lines : Int))).getD 0⟩
    if delta.files_delta ≠ 0 ∨ delta.total_lines_delta ≠ 0 then some delta else none)
  { report1_generated := r1.generated_at
    report2_generated := r2.generated_at
    global_delta := globalDelta
    language_deltas := List.insertionSort
      (fun a b => a.language ≤ b.language) languageDeltas
    new_files := newFiles
    removed_files := removedFiles
    modified_files := modifiedFiles }

/-! ## Concrete inputs used by the evaluation theorems -/

/-- The six lines of the §8 C scenario:
`"// comment\n\nint x;\n/* block\n still block */\nint y; // trailing"`. -/
def scenarioCLines : List (List Char) :=
  ["// comment".toList, "".toList, "int x;".toList, "/* block".toList,
   " still block */".toList, "int y; // trailing".toList]

/-- A two-line C file whose second line closes the block comment opened on
the first: `"/* a\nb */"`. -/
def blockCLines : List (List Char) :=
  ["/* a".toList, "b */".toList]

/-- Field access on a JSON object (a default for the cases that cannot
arise in the statements below). -/
def jsonField (j : Json) (k : String) : Json :=
  match j with
  | .obj fs => (((fs.find? (fun kv => kv.1 = k)).map (fun kv => kv.2)).getD (.obj []))
  | _ => .obj []

/-- Element access on a JSON array. -/
def jsonAt (j : Json) (n : Nat) : Json :=
  match j with
  | .arr xs => xs.getD n (.obj [])
  | _ => .obj []

/-- A one-file report without checksum, as `Report::new` would aggregate a
single counted C file. -/
def demoReport : Report where
  report_format_version := "0.1.0"
  generated_at := "2026-01-01T00:00:00Z"
  files := [⟨"a.c", "C", 3, 2, 0, 1⟩]
  languages := [⟨"C", 1, 3, 2, 0, 1⟩]
  summary := ⟨1, 3, 2, 0, 1, 1, 0⟩
  unsupported_files := []
  checksum := none

/-! ## C1 -/

/-- C1: the claim asserts `total_lines = logical_lines + comment_lines +
empty_lines` with every line in exactly one category.  The code violates it:
in `count_file`, a line for which `is_in_multiline_comment` returns true is
only counted when blank (src/counter.rs lines 388-393 have no branch for the
non-blank case), so the two lines of `"/* a\nb */"` increment `total_lines`
but no category counter, and the three categories sum to 0 ≠ 2. -/
theorem C1_partition_fails_on_block_comments :
    count_file "f.c" (some cLang) false blockCLines = ⟨"f.c", "C", 2, 0, 0, 0⟩ ∧
    (count_file "f.c" (some cLang) false blockCLines).total_lines ≠
      (count_file "f.c" (some cLang) false blockCLines).logical_lines +
      (count_file "f.c" (some cLang) false blockCLines).comment_lines +
      (count_file "f.c" (some cLang) false blockCLines).empty_lines := by
  decide

/-! ## C2 -/

/-- C2 counterexample: on the §8 scenario the code does not produce
`total=6, comment=2, empty=1, logical=3`. -/
theorem C2_claimed_split_is_wrong :
    ¬ ((count_file "t.c" (some cLang) false scenarioCLines).total_lines = 6 ∧
       (count_file "t.c" (some cLang) false scenarioCLines).comment_lines = 2 ∧
       (count_file "t.c" (some cLang) false scenarioCLines).empty_lines = 1 ∧
       (count_file "t.c" (some cLang) false scenarioCLines).logical_lines = 3) := by
  decide

/-- C2 as amended: the scenario yields `total=6, logical=2, comment=1,
empty=1` — line 1 is the only comment line, lines 3 and 6 (the Mixed line)
are logical, line 2 is empty, and the two block-comment lines 4 and 5 are
counted in no category at all. -/
theorem C2_actual_scenario_counts :
    count_file "t.c" (some cLang) false scenarioCLines = ⟨"t.c", "C", 6, 2, 1, 1⟩ := by
  decide

/-! ## C4 -/

/-- C4 counterexample: in the serialized JSON report the `files[]` entries
do not carry `totalLines` — `FileStats` has no serde rename attribute, so
its keys stay snake_case (`total_lines`, ...); only the top-level `Report`
fields are camelCase. -/
theorem C4_files_entries_are_snake_case :
    "totalLines" ∉ topKeys (jsonAt (jsonField (Report.toJson demoReport) "files") 0) ∧
    topKeys (jsonAt (jsonField (Report.toJson demoReport) "files") 0) =
      ["path", "language", "total_lines", "logical_lines", "comment_lines",
       "empty_lines"] := by
  decide

/-- C4 as amended: the top-level report keys are camelCase
(`reportFormatVersion`, `generatedAt`, `files`, `languages`, `summary`,
`unsupportedFiles`) with `checksum` appended only when present, while the
nested `files[]`, `languages[]` and `summary` objects keep the snake_case
Rust field names. -/
theorem C4_actual_json_schema (r : Report) :
    topKeys (Report.toJson r) =
      ["reportFormatVersion", "generatedAt", "files", "languages", "summary",
       "unsupportedFiles"] ++
        (match r.checksum with | some _ => ["checksum"] | none => []) ∧
    (∀ f : FileStats, topKeys (FileStats.toJson f) =
      ["path", "language", "total_lines", "logical_lines", "comment_lines",
       "empty_lines"]) ∧
    (∀ l : LanguageStats, topKeys (LanguageStats.toJson l) =
      ["language", "file_count", "total_lines", "logical_lines", "comment_lines",
       "empty_lines"]) ∧
    (∀ s : GlobalSummary, topKeys (GlobalSummary.toJson s) =
      ["total_files", "total_lines", "logical_lines", "comment_lines",
       "empty_lines", "languages_count", "unsupported_files"]) ∧
    (r.checksum = none → "checksum" ∉ topKeys (Report.toJson r)) := by
  refine ⟨?_, fun f => rfl, fun l => rfl, fun s => rfl, ?_⟩
  · cases h : r.checksum <;> simp [Report.toJson, topKeys, h]
  · intro h
    simp [Report.toJson, topKeys, h]

/-- C4 witness: the amended schema instantiated on the demo report, whose
checksum is absent, so `checksum` does not appear among its keys. -/
theorem C4_actual_json_schema_witness :
    "checksum" ∉ topKeys (Report.toJson demoReport) :=
  (C4_actual_json_schema demoReport).2.2.2.2 rfl

/-! ## C5 -/

/-- C5: `detect` resolves in override-first order: an override sends the
lookup to the registry by language name with no fallback to the extension
map when that name is unregistered; without an override the derived
extension map is consulted; no extension means `None`. -/
theorem C5_detect_resolution_order (d : LanguageDetector) :
    detect d none = none ∧
    (∀ ext name, alGet d.overrides ext = some name →
      detect d (some ext) = alGet d.languages name) ∧
    (∀ ext name, alGet d.overrides ext = some name → alGet d.languages name = none →
      detect d (some ext) = none) ∧
    (∀ ext, alGet d.overrides ext = none →
      detect d (some ext) = (alGet d.extension_map ext).bind (alGet d.languages)) ∧
    (∀ ext, alGet d.overrides ext = none → alGet d.extension_map ext = none →
      detect d (some ext) = none) := by
  refine ⟨rfl, ?_, ?_, ?_, ?_⟩ <;> intros <;> simp [detect, *]

/-- A detector whose extension map knows `xyz` but whose override for `xyz`
names an unregistered language. -/
def overriddenDetector : LanguageDetector :=
  add_override
    (add_language (add_language ⟨[], [], []⟩ "c" cLang) "rust" rustLang)
    "rs" "ghost"

/-- C5 witness: on `overriddenDetector`, the extension `rs` is in the
extension map (pointing at Rust), yet detection returns `none` because the
override's target `ghost` is unregistered — no fallback happens. -/
theorem C5_detect_resolution_order_witness :
    detect overriddenDetector (some "rs") = none ∧
    alGet overriddenDetector.extension_map "rs" = some "rust" :=
  ⟨(C5_detect_resolution_order overriddenDetector).2.2.1 "rs" "ghost"
    (by decide) (by decide), by decide⟩

/-! ## C8 -/

/-! ## Facts about `findSub` and `containsSub` -/

theorem findSub_cons_none {pat : List Char} {a : Char} {t : List Char}
    (h : findSub (a :: t) pat = none) : findSub t pat = none := by
  rw [findSub] at h
  by_cases hp : pat.isPrefixOf (a :: t)
  · simp [hp] at h
  · simp only [hp, if_false] at h
    exact Option.map_eq_none'.mp h

theorem findSub_drop_none {pat l : List Char} (h : findSub l pat = none) :
    ∀ k, findSub (l.drop k) pat = none := by
  intro k
  induction k generalizing l with
  | zero => simpa using h
  | succ k ih =>
    cases l with
    | nil => simpa using h
    | cons a t => rw [List.drop_succ_cons]; exact ih (findSub_cons_none h)

theorem containsSub_drop_false {pat l : List Char} (h : containsSub l pat = false)
    (k : Nat) : containsSub (l.drop k) pat = false := by
  rw [containsSub] at h ⊢
  rw [findSub_drop_none (Option.not_isSome_iff_eq_none.mp (by simp [h])) k]
  rfl

/-! ## C3 -/

/-- C3 counterexample: with the C grammar, a line that closes a block
comment open from a previous line and carries trailing code is reported as
NOT in-comment — the claim says the boolean contract reports it as fully
in-comment. -/
theorem C3_close_line_not_reported_in_comment :
    ¬ ((is_in_multiline_comment cLang ("*/ int x;".toList) ⟨true, 0⟩).1 = true) := by
  decide

/-- C3 as amended: for every non-nesting language, a line that closes a
multi-line comment open from a previous line (`in_comment = true`, the end
delimiter occurs at `pos`) with trailing non-whitespace after the delimiter
makes `is_in_multiline_comment` return `false` — the early `return false`
of src/language.rs line 389 — with the `in_comment` flag cleared, so the
line falls through to the single-line classification path. -/
theorem C3_close_with_code_returns_false (lang : Language) (s e : List Char)
    (rest : List (List Char × List Char)) (line : List Char) (st : MState)
    (pos : Nat)
    (hnest : lang.nested_comments = false)
    (hpairs : lang.multi_line_comment = (s, e) :: rest)
    (hin : st.inComment = true)
    (hfind : findSub line e = some pos)
    (hafter : (trimList (line.drop (pos + e.length))).isEmpty = false) :
    is_in_multiline_comment lang line st = (false, ⟨false, st.depth⟩) := by
  rw [is_in_multiline_comment, hpairs]
  simp only [List.isEmpty_cons, Bool.false_eq_true, if_false, hnest]
  rw [goPairs]
  simp [hin, containsSub, hfind, hafter]

/-- C3 witness: the amended statement at a concrete C line closing the
comment mid-line with code after it. -/
theorem C3_close_with_code_returns_false_witness :
    is_in_multiline_comment cLang ("end */ x += 1;".toList) ⟨true, 3⟩ =
      (false, ⟨false, 3⟩) :=
  C3_close_with_code_returns_false cLang ("/*".toList) ("*/".toList) []
    ("end */ x += 1;".toList) ⟨true, 3⟩ 4 rfl rfl rfl (by decide) (by decide)

/-! ## C10 -/

/-- In the non-nested branch, a line containing no start token of any pair
leaves an out-of-comment state untouched and reports `false`. -/
theorem goPairs_inactive (line copy : List Char)
    (pairs : List (List Char × List Char)) (st : MState) (res : Bool)
    (hin : st.inComment = false)
    (h : ∀ q ∈ pairs, findSub line q.1 = none) :
    goPairs false line pairs copy st res = (res, st) := by
  induction pairs with
  | nil => rfl
  | cons q rest ih =>
    obtain ⟨s, e⟩ := q
    have h1 := h (s, e) (List.mem_cons_self _ _)
    rw [goPairs]
    simp only [Bool.false_eq_true, if_false, hin, containsSub, h1,
      Option.isSome_none]
    exact ih (fun q hq => h q (List.mem_cons_of_mem _ hq))

/-- C10: for a non-nesting language, a line that closes the open comment at
`pos` and whose trailing remainder is non-blank — in particular when that
remainder re-opens a comment with a new start delimiter — takes the early
`return false` before the reopening is ever examined: the call returns
`false` with `in_comment = false`, and any following line containing no
delimiters is likewise reported not-in-comment (so it is classified by the
single-line path). -/
theorem C10_close_reopen_not_recorded (lang : Language) (s e : List Char)
    (rest : List (List Char × List Char)) (line : List Char) (st : MState)
    (pos : Nat)
    (hnest : lang.nested_comments = false)
    (hpairs : lang.multi_line_comment = (s, e) :: rest)
    (hin : st.inComment = true)
    (hfind : findSub line e = some pos)
    (hafter : (trimList (line.drop (pos + e.length))).isEmpty = false)
    (_hreopen : containsSub (line.drop (pos + e.length)) s = true) :
    is_in_multiline_comment lang line st = (false, ⟨false, st.depth⟩) ∧
    (∀ l2 : List Char,
      (∀ q ∈ lang.multi_line_comment, findSub l2 q.1 = none) →
      is_in_multiline_comment lang l2 ⟨false, st.depth⟩ =
        (false, ⟨false, st.depth⟩)) := by
  constructor
  · rw [is_in_multiline_comment, hpairs]
    simp only [List.isEmpty_cons, Bool.false_eq_true, if_false, hnest]
    rw [goPairs]
    simp [hin, containsSub, hfind, hafter]
  · intro l2 h2
    rw [is_in_multiline_comment, hpairs]
    simp only [List.isEmpty_cons, Bool.false_eq_true, if_false, hnest]
    exact goPairs_inactive l2 l2 _ ⟨false, st.depth⟩ false rfl
      (fun q hq => h2 q (hpairs ▸ hq))

/-- C10 witness: `"*/ x /* y"` with the C grammar from inside a comment —
the call returns `false` and clears `in_comment`, and the following
delimiter-free line `" y text"` is also reported not-in-comment. -/
theorem C10_close_reopen_not_recorded_witness :
    is_in_multiline_comment cLang ("*/ x /* y".toList) ⟨true, 0⟩ =
      (false, ⟨false, 0⟩) ∧
    is_in_multiline_comment cLang (" y text".toList) ⟨false, 0⟩ =
      (false, ⟨false, 0⟩) := by
  have h := C10_close_reopen_not_recorded cLang ("/*".toList) ("*/".toList) []
    ("*/ x /* y".toList) ⟨true, 0⟩ 0 rfl rfl rfl (by decide) (by decide) (by decide)
  exact ⟨h.1, h.2 (" y text".toList) (by decide)⟩

/-! ## C7: nested comment depth -/

/-- A line containing exactly one occurrence of `tok` and none of `other`:
`tok` is found at some position, `other` nowhere, and past the occurrence
`tok` does not recur. -/
def isPureLine (tok other : List Char) (line : List Char) : Bool :=
  match findSub line tok with
  | some p => (findSub line other).isNone && (findSub (line.drop (p + tok.length)) tok).isNone
  | none => false

/-- No token of any listed pair occurs in `line`. -/
def noTokens (pairs : List (List Char × List Char)) (line : List Char) : Bool :=
  pairs.all (fun q => (findSub line q.1).isNone && (findSub line q.2).isNone)

/-- The multiline state after feeding a sequence of lines through
`is_in_multiline_comment`, exactly as `count_file` threads it. -/
def mlState (lang : Language) (lines : List (List Char)) (st : MState) : MState :=
  lines.foldl (fun st l => (is_in_multiline_comment lang l st).2) st

theorem mlState_cons (lang : Language) (l : List Char) (t : List (List Char))
    (st : MState) :
    mlState lang (l :: t) st = mlState lang t ((is_in_multiline_comment lang l st).2) :=
  rfl

theorem mlState_append (lang : Language) (l1 l2 : List (List Char)) (st : MState) :
    mlState lang (l1 ++ l2) st = mlState lang l2 (mlState lang l1 st) := by
  rw [mlState, List.foldl_append]; rfl

theorem nestedLoop_nonneg (s e : List Char) :
    ∀ (fuel : Nat) (copy : List Char) (d : Int), 0 ≤ d →
      0 ≤ (nestedLoop fuel s e copy d).1 := by
  intro fuel
  induction fuel with
  | zero => intro copy d hd; exact hd
  | succ n ih =>
    intro copy d hd
    rw [nestedLoop]
    split
    · split
      · split
        · split
          · exact ih _ _ (by omega)
          · apply ih; split <;> omega
        · exact ih _ _ (by omega)
      · split
        · apply ih; split <;> omega
        · exact hd
    · exact hd

/-- A line containing neither token leaves the nested scan unchanged. -/
theorem nestedLoop_no_tokens {s e copy : List Char} (fuel : Nat) (d : Int)
    (hs : findSub copy s = none) (he : findSub copy e = none) :
    nestedLoop fuel s e copy d = (d, copy) := by
  cases fuel with
  | zero => rfl
  | succ n => rw [nestedLoop]; simp [containsSub, hs, he]

/-- A line with exactly one start token and no end token increments the
depth and consumes the line up to past the occurrence. -/
theorem nestedLoop_pure_start {s e copy : List Char} {p : Nat} (m : Nat) (d : Int)
    (hs : findSub copy s = some p) (he : findSub copy e = none)
    (hs2 : findSub (copy.drop (p + s.length)) s = none) :
    nestedLoop (m + 1) s e copy d = (d + 1, copy.drop (p + s.length)) := by
  rw [nestedLoop]
  simp only [containsSub, hs, he, Option.isSome_some, Option.isSome_none,
    Bool.true_or, if_true]
  exact nestedLoop_no_tokens m (d + 1) hs2 (findSub_drop_none he _)

/-- A line with exactly one end token and no start token decrements the
depth (floored at zero). -/
theorem nestedLoop_pure_end {s e copy : List Char} {p : Nat} (m : Nat) (d : Int)
    (hs : findSub copy s = none) (he : findSub copy e = some p)
    (he2 : findSub (copy.drop (p + e.length)) e = none) :
    nestedLoop (m + 1) s e copy d =
      ((if 0 < d then d - 1 else d), copy.drop (p + e.length)) := by
  rw [nestedLoop]
  simp only [containsSub, hs, he, Option.isSome_some, Option.isSome_none,
    Bool.or_true, if_true]
  exact nestedLoop_no_tokens m _ (findSub_drop_none hs _) he2

/-- Later pairs whose tokens do not occur in the remaining copy leave the
nested state and result unchanged. -/
theorem goPairs_nested_skip (line : List Char) :
    ∀ (pairs : List (List Char × List Char)) (copy : List Char) (st : MState),
      (∀ q ∈ pairs, findSub copy q.1 = none ∧ findSub copy q.2 = none) →
      goPairs true line pairs copy st (decide (0 < st.depth)) =
        (decide (0 < st.depth), st) := by
  intro pairs
  induction pairs with
  | nil => intro copy st _; rfl
  | cons q rest ih =>
    intro copy st h
    obtain ⟨s, e⟩ := q
    obtain ⟨h1, h2⟩ := h (s, e) (List.mem_cons_self _ _)
    rw [goPairs]
    simp only [if_true]
    rw [nestedLoop_no_tokens _ _ h1 h2]
    exact ih copy st (fun q hq => h q (List.mem_cons_of_mem _ hq))

/-- The depth stays non-negative through the whole pair loop of a
nested-comments language. -/
theorem goPairs_nested_nonneg (line : List Char) :
    ∀ (pairs : List (List Char × List Char)) (copy : List Char) (st : MState)
      (res : Bool), 0 ≤ st.depth →
      0 ≤ ((goPairs true line pairs copy st res).2).depth := by
  intro pairs
  induction pairs with
  | nil => intro copy st res h; exact h
  | cons q rest ih =>
    intro copy st res h
    obtain ⟨s, e⟩ := q
    rw [goPairs]
    simp only [if_true]
    exact ih _ _ _ (nestedLoop_nonneg s e _ copy st.depth h)

/-- One pure-start line under a nested grammar bumps the depth by one and
leaves `in_comment` untouched. -/
theorem multiline_nested_start (lang : Language) {s e : List Char}
    {rest : List (List Char × List Char)} (line : List Char) (st : MState)
    (hnest : lang.nested_comments = true)
    (hpairs : lang.multi_line_comment = (s, e) :: rest)
    (hline : isPureLine s e line = true)
    (hrest : noTokens rest line = true) :
    is_in_multiline_comment lang line st =
      (decide (0 < st.depth + 1), ⟨st.inComment, st.depth + 1⟩) := by
  rw [isPureLine] at hline
  rcases hf : findSub line s with _ | p
  · rw [hf] at hline; cases hline
  · rw [hf] at hline
    simp only [Bool.and_eq_true, Option.isNone_iff_eq_none] at hline
    obtain ⟨hother, hagain⟩ := hline
    rw [is_in_multiline_comment, hpairs]
    simp only [List.isEmpty_cons, Bool.false_eq_true, if_false, hnest]
    rw [goPairs]
    simp only [if_true]
    rw [nestedLoop_pure_start line.length st.depth hf hother hagain]
    rw [goPairs_nested_skip line rest _ ⟨st.inComment, st.depth + 1⟩]
    intro q hq
    rw [noTokens, List.all_eq_true] at hrest
    have := hrest q hq
    simp only [Bool.and_eq_true, Option.isNone_iff_eq_none] at this
    exact ⟨findSub_drop_none this.1 _, findSub_drop_none this.2 _⟩

/-- One pure-end line under a nested grammar decrements the depth (floored
at zero) and leaves `in_comment` untouched. -/
theorem multiline_nested_end (lang : Language) {s e : List Char}
    {rest : List (List Char × List Char)} (line : List Char) (st : MState)
    (hnest : lang.nested_comments = true)
    (hpairs : lang.multi_line_comment = (s, e) :: rest)
    (hline : isPureLine e s line = true)
    (hrest : noTokens rest line = true) :
    is_in_multiline_comment lang line st =
      (decide (0 < if 0 < st.depth then st.depth - 1 else st.depth),
       ⟨st.inComment, if 0 < st.depth then st.depth - 1 else st.depth⟩) := by
  rw [isPureLine] at hline
  rcases hf : findSub line e with _ | p
  · rw [hf] at hline; cases hline
  · rw [hf] at hline
    simp only [Bool.and_eq_true, Option.isNone_iff_eq_none] at hline
    obtain ⟨hother, hagain⟩ := hline
    rw [is_in_multiline_comment, hpairs]
    simp only [List.isEmpty_cons, Bool.false_eq_true, if_false, hnest]
    rw [goPairs]
    simp only [if_true]
    rw [nestedLoop_pure_end line.length st.depth hother hf hagain]
    rw [goPairs_nested_skip line rest _ ⟨st.inComment, _⟩]
    intro q hq
    rw [noTokens, List.all_eq_true] at hrest
    have := hrest q hq
    simp only [Bool.and_eq_true, Option.isNone_iff_eq_none] at this
    exact ⟨findSub_drop_none this.1 _, findSub_drop_none this.2 _⟩

theorem mlState_starts (lang : Language) {s e : List Char}
    {rest : List (List Char × List Char)}
    (hnest : lang.nested_comments = true)
    (hpairs : lang.multi_line_comment = (s, e) :: rest) :
    ∀ (starts : List (List Char)) (st : MState),
      (∀ l ∈ starts, isPureLine s e l = true ∧ noTokens rest l = true) →
      mlState lang starts st = ⟨st.inComment, st.depth + starts.length⟩ := by
  intro starts
  induction starts with
  | nil => intro st _; simp [mlState]
  | cons l t ih =>
    intro st h
    obtain ⟨h1, h2⟩ := h l (List.mem_cons_self _ _)
    rw [mlState_cons, multiline_nested_start lang l st hnest hpairs h1 h2]
    rw [ih ⟨st.inComment, st.depth + 1⟩ (fun l hl => h l (List.mem_cons_of_mem _ hl))]
    simp only [MState.mk.injEq, List.length_cons, true_and]
    omega

theorem mlState_ends (lang : Language) {s e : List Char}
    {rest : List (List Char × List Char)}
    (hnest : lang.nested_comments = true)
    (hpairs : lang.multi_line_comment = (s, e) :: rest) :
    ∀ (ends : List (List Char)) (st : MState),
      st.depth = ends.length →
      (∀ l ∈ ends, isPureLine e s l = true ∧ noTokens rest l = true) →
      mlState lang ends st = ⟨st.inComment, 0⟩ := by
  intro ends
  induction ends with
  | nil =>
    intro st hd _
    simp only [List.length_nil, Nat.cast_zero] at hd
    simp [mlState, ← hd]
  | cons l t ih =>
    intro st hd h
    obtain ⟨h1, h2⟩ := h l (List.mem_cons_self _ _)
    have hpos : 0 < st.depth := by
      rw [hd]; simp only [List.length_cons]; positivity
    rw [mlState_cons, multiline_nested_end lang l st hnest hpairs h1 h2]
    rw [if_pos hpos]
    exact ih ⟨st.inComment, st.depth - 1⟩ (by simp only [List.length_cons] at hd ⊢; omega)
      (fun l hl => h l (List.mem_cons_of_mem _ hl))

/-- C7: for a language with nested comments, (i) the depth counter never
goes negative — decrements are guarded by `*depth > 0` — from any starting
state with non-negative depth, and (ii) starting from the fresh state,
N lines each holding one start token followed by N lines each holding one
end token leave the threaded state at `in_comment = false, depth = 0`. -/
theorem C7_nested_depth_behaviour (lang : Language) (s e : List Char)
    (rest : List (List Char × List Char))
    (hnest : lang.nested_comments = true)
    (hpairs : lang.multi_line_comment = (s, e) :: rest) :
    (∀ (line : List Char) (st : MState), 0 ≤ st.depth →
      0 ≤ ((is_in_multiline_comment lang line st).2).depth) ∧
    (∀ (starts ends : List (List Char)),
      starts.length = ends.length →
      (∀ l ∈ starts, isPureLine s e l = true ∧ noTokens rest l = true) →
      (∀ l ∈ ends, isPureLine e s l = true ∧ noTokens rest l = true) →
      mlState lang (starts ++ ends) ⟨false, 0⟩ = ⟨false, 0⟩) := by
  constructor
  · intro line st h
    rw [is_in_multiline_comment]
    split
    · exact h
    · rw [hnest]; exact goPairs_nested_nonneg line _ line st st.inComment h
  · intro starts ends hlen hstarts hends
    rw [mlState_append, mlState_starts lang hnest hpairs starts ⟨false, 0⟩ hstarts]
    exact mlState_ends lang hnest hpairs ends _ (by simp [hlen]) hends

/-- C7 witness: the Rust grammar on one opener line `"/* a"` followed by one
closer line `"*/"` returns to `in_comment = false, depth = 0`, and a single
step from the fresh state keeps the depth non-negative. -/
theorem C7_nested_depth_behaviour_witness :
    0 ≤ ((is_in_multiline_comment rustLang ("*/ x".toList) ⟨false, 0⟩).2).depth ∧
    mlState rustLang ["/* a".toList, "*/".toList] ⟨false, 0⟩ = ⟨false, 0⟩ := by
  have h := C7_nested_depth_behaviour rustLang ("/*".toList) ("*/".toList) []
    rfl rfl
  exact ⟨h.1 ("*/ x".toList) ⟨false, 0⟩ (by decide),
    h.2 ["/* a".toList] ["*/".toList] rfl (by decide) (by decide)⟩

/-! ## Facts about the association-list maps -/

theorem upsert_keys_nodup {α : Type} {m : List (String × α)} {k : String} {v : α}
    (h : (m.map Prod.fst).Nodup) : ((upsert m k v).map Prod.fst).Nodup := by
  rw [upsert]
  split
  · have : (m.map (fun kv => if kv.1 = k then (kv.1, v) else kv)).map Prod.fst =
        m.map Prod.fst := by
      rw [List.map_map]
      apply List.map_congr_left
      intro kv _
      by_cases hk : kv.1 = k <;> simp [hk]
    rw [this]; exact h
  · rename_i hany
    have hk : k ∉ m.map Prod.fst := by
      intro hmem
      obtain ⟨kv, hkv, hfst⟩ := List.mem_map.mp hmem
      exact hany (List.any_eq_true.mpr ⟨kv, hkv, by simp [hfst]⟩)
    simp only [List.map_append, List.map_cons, List.map_nil]
    rw [List.nodup_append]
    refine ⟨h, List.nodup_singleton k, ?_⟩
    intro a ha hak
    rw [List.mem_singleton] at hak
    exact hk (hak ▸ ha)

theorem entriesOf_keys_nodup {α : Type} (key : α → String) (xs : List α) :
    ((entriesOf key xs).map Prod.fst).Nodup := by
  have aux : ∀ (xs : List α) (m : List (String × α)), (m.map Prod.fst).Nodup →
      ((xs.foldl (fun m x => upsert m (key x) x) m).map Prod.fst).Nodup := by
    intro xs
    induction xs with
    | nil => intro m h; exact h
    | cons x t ih => intro m h; exact ih _ (upsert_keys_nodup h)
  exact aux xs [] (by simp)

/-- In a map with pairwise-distinct keys, every entry is what its key looks
up to. -/
theorem alGet_of_mem {α : Type} {m : List (String × α)} {kv : String × α}
    (hmem : kv ∈ m) (hnd : (m.map Prod.fst).Nodup) : alGet m kv.1 = some kv.2 := by
  induction m with
  | nil => cases hmem
  | cons a t ih =>
    simp only [List.map_cons, List.nodup_cons] at hnd
    rcases List.mem_cons.mp hmem with rfl | hmem
    · simp [alGet, List.find?_cons_of_pos]
    · have hne : a.1 ≠ kv.1 := by
        intro hfst
        exact hnd.1 (hfst ▸ List.mem_map_of_mem Prod.fst hmem)
      rw [alGet, List.find?_cons_of_neg _ (by simpa using hne)]
      exact ih hmem hnd.2

/-! ## C9 -/

/-- C9: comparing a report with itself yields empty new/removed/modified
file lists, the all-zero global delta, and — since all-zero per-language
deltas are suppressed — an empty language-delta list. -/
theorem C9_compare_self (r : Report) :
    (compare r r).new_files = [] ∧
    (compare r r).removed_files = [] ∧
    (compare r r).modified_files = [] ∧
    (compare r r).global_delta = ⟨0, 0, 0, 0, 0⟩ ∧
    (compare r r).language_deltas = [] := by
  have hnd := entriesOf_keys_nodup FileStats.path r.files
  have hsome : ∀ kv ∈ entriesOf FileStats.path r.files,
      alGet (entriesOf FileStats.path r.files) kv.1 = some kv.2 :=
    fun kv hkv => alGet_of_mem hkv hnd
  refine ⟨?_, ?_, ?_, ?_, ?_⟩
  · simp only [compare]
    rw [List.map_eq_nil_iff, List.filter_eq_nil_iff]
    intro kv hkv
    simp [hsome kv hkv]
  · simp only [compare]
    rw [List.map_eq_nil_iff, List.filter_eq_nil_iff]
    intro kv hkv
    simp [hsome kv hkv]
  · simp only [compare]
    rw [List.filterMap_eq_nil_iff]
    intro kv hkv
    rw [hsome kv hkv]
    simp
  · simp only [compare]
    simp [GlobalDelta.mk.injEq]
  · simp only [compare]
    rw [List.filterMap_eq_nil_iff.mpr (by intro name _; simp)]
    rfl

/-- C8: `load_from_config` is atomic — a malformed external definition
(toml parse error) yields `InvalidConfig` with the detector exactly as it
was (the error return precedes any mutation), and a well-formed mapping is
merged entry by entry through `add_language`. -/
theorem C8_load_from_config_atomic (d : LanguageDetector) :
    (∀ e, load_from_config d (.error e) = (d, some (.InvalidConfig e))) ∧
    (∀ entries, load_from_config d (.ok entries) =
      (entries.foldl (fun d kv => add_language d kv.1 kv.2) d, none)) :=
  ⟨fun _ => rfl, fun _ => rfl⟩

/-! ## C6: checksum determinism -/

theorem charsLe_total : ∀ a b : List Char, charsLe a b = true ∨ charsLe b a = true := by
  intro a
  induction a with
  | nil => intro b; left; rfl
  | cons x xs ih =>
    intro b
    cases b with
    | nil => right; rfl
    | cons y ys =>
      rcases lt_trichotomy x y with h | h | h
      · left; simp [charsLe, h]
      · subst h
        rcases ih ys with hy | hy
        · left; simp [charsLe, lt_irrefl, hy]
        · right; simp [charsLe, lt_irrefl, hy]
      · right; simp [charsLe, h]

theorem charsLe_trans :
    ∀ a b c : List Char, charsLe a b = true → charsLe b c = true →
      charsLe a c = true := by
  intro a
  induction a with
  | nil => intro b c _ _; rfl
  | cons x xs ih =>
    intro b c hab hbc
    cases b with
    | nil => cases hab
    | cons y ys =>
      cases c with
      | nil => cases hbc
      | cons z zs =>
        rw [charsLe] at hab hbc ⊢
        rcases lt_trichotomy x y with hxy | hxy | hxy
        · rcases lt_trichotomy y z with hyz | hyz | hyz
          · simp [lt_trans hxy hyz]
          · subst hyz; simp [hxy]
          · rw [if_neg (lt_asymm hyz), if_pos hyz] at hbc; cases hbc
        · subst hxy
          rcases lt_trichotomy x z with hyz | hyz | hyz
          · simp [hyz]
          · subst hyz
            rw [if_neg (lt_irrefl x), if_neg (lt_irrefl x)] at hab hbc ⊢
            exact ih ys zs hab hbc
          · rw [if_neg (lt_asymm hyz), if_pos hyz] at hbc; cases hbc
        · rw [if_neg (lt_asymm hxy), if_pos hxy] at hab; cases hab

theorem charsLe_antisymm :
    ∀ a b : List Char, charsLe a b = true → charsLe b a = true → a = b := by
  intro a
  induction a with
  | nil =>
    intro b _ hba
    cases b with
    | nil => rfl
    | cons y ys => cases hba
  | cons x xs ih =>
    intro b hab hba
    cases b with
    | nil => cases hab
    | cons y ys =>
      rw [charsLe] at hab hba
      rcases lt_trichotomy x y with hxy | hxy | hxy
      · rw [if_neg (lt_asymm hxy), if_pos hxy] at hba; cases hba
      · subst hxy
        rw [if_neg (lt_irrefl x), if_neg (lt_irrefl x)] at hab hba
        rw [ih ys hab hba]
      · rw [if_neg (lt_asymm hxy), if_pos hxy] at hab; cases hab

theorem pathLe_antisymm {a b : String} (hab : pathLe a b = true)
    (hba : pathLe b a = true) : a = b := by
  cases a; cases b
  exact congrArg String.mk (charsLe_antisymm _ _ hab hba)

instance : IsTotal FileStats (fun a b => pathLe a.path b.path = true) :=
  ⟨fun a b => charsLe_total a.path.data b.path.data⟩

instance : IsTrans FileStats (fun a b => pathLe a.path b.path = true) :=
  ⟨fun _ _ _ h1 h2 => charsLe_trans _ _ _ h1 h2⟩

/-- Two sorted-by-path lists that are permutations of each other and whose
paths are pairwise distinct are equal. -/
theorem sorted_unique_by_path :
    ∀ {l1 l2 : List FileStats},
      l1.Sorted (fun a b => pathLe a.path b.path = true) →
      l2.Sorted (fun a b => pathLe a.path b.path = true) →
      l1.Perm l2 → (l1.map FileStats.path).Nodup → l1 = l2 := by
  intro l1
  induction l1 with
  | nil =>
    intro l2 _ _ hp _
    exact hp.nil_eq
  | cons a t ih =>
    intro l2 hs1 hs2 hp hnd
    cases l2 with
    | nil => cases hp.eq_nil
    | cons b t2 =>
      simp only [List.map_cons, List.nodup_cons] at hnd
      have hab : a = b := by
        by_contra hne
        have hbmem : b ∈ a :: t := hp.symm.subset (List.mem_cons_self b t2)
        have hamem : a ∈ b :: t2 := hp.subset (List.mem_cons_self a t)
        have hb : b ∈ t := by
          rcases List.mem_cons.mp hbmem with h | h
          · exact absurd h.symm hne
          · exact h
        have ha2 : a ∈ t2 := by
          rcases List.mem_cons.mp hamem with h | h
          · exact absurd h hne
          · exact h
        have h1 : pathLe a.path b.path = true := List.rel_of_sorted_cons hs1 b hb
        have h2 : pathLe b.path a.path = true := List.rel_of_sorted_cons hs2 a ha2
        exact hnd.1 (pathLe_antisymm h1 h2 ▸ List.mem_map_of_mem FileStats.path hb)
      subst hab
      rw [ih hs1.of_cons hs2.of_cons hp.cons_inv hnd.2]

/-- Stable sorting by path is invariant under permutations of a
duplicate-free file list. -/
theorem sortByPath_perm_eq {l1 l2 : List FileStats} (hperm : l1.Perm l2)
    (hnd : (l1.map FileStats.path).Nodup) : sortByPath l1 = sortByPath l2 := by
  apply sorted_unique_by_path
    (List.sorted_insertionSort _ l1) (List.sorted_insertionSort _ l2)
  · exact (List.perm_insertionSort _ l1).trans
      (hperm.trans (List.perm_insertionSort _ l2).symm)
  · exact (((List.perm_insertionSort
      (fun a b => pathLe a.path b.path = true) l1).map FileStats.path).nodup_iff).mpr hnd

/-- C6 counterexample: the claim quantifies over every report and every
permutation, but with two `FileStats` sharing a path the stable path sort
preserves their input order, the hasher consumes different byte streams,
and the SHA-256 digests differ.  The two reports below hold the same
`FileStats` multiset in the two orders. -/
def dupPathReportA : Report where
  report_format_version := "0.1.0"
  generated_at := "2026-01-01T00:00:00Z"
  files := [⟨"p", "A", 1, 1, 0, 0⟩, ⟨"p", "B", 2, 2, 0, 0⟩]
  languages := []
  summary := ⟨2, 3, 3, 0, 0, 2, 0⟩
  unsupported_files := []
  checksum := none

/-- The report `dupPathReportA` with its two (same-path) files swapped. -/
def dupPathReportB : Report :=
  { dupPathReportA with files := [⟨"p", "B", 2, 2, 0, 0⟩, ⟨"p", "A", 1, 1, 0, 0⟩] }

set_option maxRecDepth 100000 in
/-- C6 counterexample: a permutation of the same `FileStats` (two entries
with equal paths, swapped) changes the digest `calculate_checksum` stores,
so the checksum is not order-independent for every report. -/
theorem C6_duplicate_paths_break_order_independence :
    dupPathReportA.files.Perm dupPathReportB.files ∧
    (calculate_checksum dupPathReportA).checksum ≠
      (calculate_checksum dupPathReportB).checksum := by
  constructor
  · decide
  · decide

/-- C6 as amended: for reports whose file paths are pairwise distinct — the
only ones the counter produces, since path collection sorts and dedups —
`calculate_checksum` is invariant under any permutation of the files
vector, and re-invoking it on the result yields the same digest. -/
theorem C6_checksum_order_independent (r1 r2 : Report)
    (hperm : r1.files.Perm r2.files)
    (hnd : (r1.files.map FileStats.path).Nodup) :
    (calculate_checksum r1).checksum = (calculate_checksum r2).checksum ∧
    (calculate_checksum (calculate_checksum r1)).checksum =
      (calculate_checksum r1).checksum := by
  constructor
  · have h : checksumInput r1.files = checksumInput r2.files := by
      rw [checksumInput, checksumInput, sortByPath_perm_eq hperm hnd]
    simp [calculate_checksum, h]
  · rfl

/-- A two-file report with distinct paths. -/
def twoFileReportA : Report where
  report_format_version := "0.1.0"
  generated_at := "2026-01-01T00:00:00Z"
  files := [⟨"a.c", "C", 1, 1, 0, 0⟩, ⟨"b.c", "C", 2, 2, 0, 0⟩]
  languages := [⟨"C", 2, 3, 3, 0, 0⟩]
  summary := ⟨2, 3, 3, 0, 0, 1, 0⟩
  unsupported_files := []
  checksum := none

/-- The report `twoFileReportA` with its files listed in the opposite order. -/
def twoFileReportB : Report :=
  { twoFileReportA with files := [⟨"b.c", "C", 2, 2, 0, 0⟩, ⟨"a.c", "C", 1, 1, 0, 0⟩] }

/-- C6 witness: the amended theorem applied to a concrete pair of
distinct-path reports holding the same files in opposite orders. -/
theorem C6_checksum_order_independent_witness :
    (calculate_checksum twoFileReportA).checksum =
      (calculate_checksum twoFileReportB).checksum ∧
    (calculate_checksum (calculate_checksum twoFileReportA)).checksum =
      (calculate_checksum twoFileReportA).checksum :=
  C6_checksum_order_independent twoFileReportA twoFileReportB
    (by decide) (by decide)

set_option maxRecDepth 100000 in
/-- Sanity check of the SHA-256 embedding against the FIPS 180-4 "abc" test
vector, evaluated in the kernel. -/
theorem sha256_abc_vector :
    hexEncode (sha256 (strBytes "abc")) =
      "ba7816bf8f01cfea414140de5dae2223b00361a396177a9cb410ff61f20015ad" := by
  decide

end CounterLines
